import Mathlib

/-!
Verification development for a small Flask image-upload backend (src/app.py).

Strings of the Python program are modelled as `List Char` (Python strings are
sequences of Unicode code points, and Python string comparison is
lexicographic on code points, which matches `List.Lex (· < ·)` on `Char`).
The external object store (Azure Blob Storage) is an opaque collaborator: it
is modelled as an association list of blobs keyed by name, and the outcomes of
its network operations (listing, get_container_properties, upload_blob) are
parameters of the handler functions.  The deployment platform is POSIX
(os.sep is the slash, os.path.altsep is None), so the Windows-only branches of
the library code are not taken.
-/

/-- Convenience: the character list of a string literal. -/
def str (s : String) : List Char := s.data

/-- Characters matched by the class in both regexes of the source,
werkzeug's strip pattern and the tighten pattern in the sanitizer:
ASCII letters, digits, dot, underscore and hyphen. -/
def isSafeChar (c : Char) : Bool :=
  ('A' ≤ c && c ≤ 'Z') || ('a' ≤ c && c ≤ 'z') || ('0' ≤ c && c ≤ '9') ||
    c == '.' || c == '_' || c == '-'

/-- ASCII whitespace characters recognized by Python's `str.split()` with no
arguments (after the ASCII fold of `secure_filename`, only ASCII whitespace
can remain). -/
def isPySpace (c : Char) : Bool :=
  c == ' ' || c == '\t' || c == '\n' || c == '\r' || c == '\x0b' || c == '\x0c'

/-- Model of `unicodedata.normalize("NFKD", s)` followed by
`.encode("ascii", "ignore").decode("ascii")`, per character.  ASCII
characters are fixed points of NFKD and survive the encoding unchanged.
For non-ASCII characters, the result is the ASCII part of the character's
NFKD decomposition; the table below lists the decompositions (taken from the
Unicode character database) of the non-ASCII characters that are evaluated
concretely in this development, and maps every other non-ASCII character to
the empty result, which is the behaviour of all characters having no
ASCII-compatible decomposition.  No universally quantified theorem below
depends on the value of this function at non-ASCII characters. -/
def asciiFold (c : Char) : List Char :=
  if c.toNat < 128 then [c]
  else if c = 'ﬁ' then ['f', 'i']
  else []

/-- Python's `s.replace(os.sep, " ")` on POSIX: the slash becomes a space.
The second replacement of the source (os.path.altsep) is a no-op because
altsep is None on POSIX. -/
def replaceSep (s : List Char) : List Char :=
  s.map (fun c => if c = '/' then ' ' else c)

/-- Accumulator worker for `pySplit`: the first argument holds the current
word reversed. -/
def splitAux (acc : List Char) : List Char → List (List Char)
  | [] => if acc.isEmpty then [] else [acc.reverse]
  | c :: rest =>
    if isPySpace c then
      (if acc.isEmpty then splitAux [] rest else acc.reverse :: splitAux [] rest)
    else splitAux (c :: acc) rest

/-- Python's `s.split()`: split on runs of whitespace, producing no empty
words. -/
def pySplit (s : List Char) : List (List Char) := splitAux [] s

/-- Python's `"_".join(words)`. -/
def joinU : List (List Char) → List Char
  | [] => []
  | w :: rest => w ++ (if rest.isEmpty then [] else '_' :: joinU rest)

/-- Python's `s.rstrip(chars)` for a character predicate: drop matching
characters from the right end. -/
def rstrip (p : Char → Bool) (s : List Char) : List Char :=
  (s.reverse.dropWhile p).reverse

/-- Python's `s.strip(chars)` for a character predicate: drop matching
characters from both ends. -/
def pyStrip (p : Char → Bool) (s : List Char) : List Char :=
  rstrip p (s.dropWhile p)

/-- Model of `werkzeug.utils.secure_filename` on POSIX: NFKD-normalize and
ASCII-encode, turn path separators into spaces, join the whitespace-split
words with underscores, delete every character outside `[A-Za-z0-9_.-]`
(the library's `_filename_ascii_strip_re` substitutes the empty string), and
strip leading and trailing dots and underscores.  The final branch of the
library (prefixing Windows device-file names) is conditional on
`os.name == "nt"` and is not taken on POSIX. -/
def secure_filename (filename : List Char) : List Char :=
  pyStrip (fun c => c == '.' || c == '_')
    (List.filter isSafeChar
      (joinU (pySplit (replaceSep ((filename.map asciiFold).flatten)))))

/-- Model of `_sanitize` (src/app.py line 36): `secure_filename(name or "image")`
followed by `re.sub(r"[^A-Za-z0-9._-]", "_", name)`.  A Python `str` is falsy
exactly when it is empty, so `name or "image"` is the empty-input default. -/
def _sanitize (name : List Char) : List Char :=
  let n := secure_filename (if name.isEmpty then str "image" else name)
  n.map (fun c => if isSafeChar c then c else '_')

/-- Python's `str.lower()` restricted to the ASCII range.  Unicode-only
lowerings (such as the Kelvin sign to a lowercase k) never produce a string
in the all-ASCII allow-list below out of a string that did not already lower
into it character for character, since none of the listed extensions could
arise that way, so the restriction does not change any membership test
performed by the program. -/
def lowerChar (c : Char) : Char :=
  if 'A' ≤ c && c ≤ 'Z' then Char.ofNat (c.toNat + 32) else c

/-- Lowercase an entire string. -/
def lowerStr (s : List Char) : List Char := s.map lowerChar

/-- The allow-list of file extensions, ALLOWED_EXT in src/app.py line 28. -/
def ALLOWED_EXT : List (List Char) :=
  [str "png", str "jpg", str "jpeg", str "gif", str "bmp", str "webp", str "tiff"]

/-- Python's `name.rsplit(".", 1)[1]`: the part of the string after the last
dot.  As a Lean function it is total; the source only evaluates it after
checking that the string contains a dot. -/
def afterLastDot (s : List Char) : List Char :=
  (s.reverse.takeWhile (fun c => c != '.')).reverse

/-- Model of `_is_allowed_file` (src/app.py line 33):
`"." in name and name.rsplit(".", 1)[1].lower() in ALLOWED_EXT`. -/
def _is_allowed_file (name : List Char) : Bool :=
  decide ('.' ∈ name) && decide (lowerStr (afterLastDot name) ∈ ALLOWED_EXT)

/-- Model of `_is_image_mt` (src/app.py line 30):
`bool(mt) and mt.startswith("image/")`. -/
def _is_image_mt (mt : List Char) : Bool :=
  (!mt.isEmpty) && (str "image/").isPrefixOf mt

/-- Model of the standard library's `mimetypes.guess_type` first component,
an external collaborator: the lowercased suffix after the last dot of the
name, looked up in the default extension-to-type map, here restricted to the
extensions this program's allow-list and tests mention; every other
extension, and a name with no dot, yields None.  No theorem below depends on
the contents of this table: the upload handler's resolved content type is
defined in terms of this function, whatever its table. -/
def guessTable : List (List Char × List Char) :=
  [(str "png", str "image/png"), (str "jpg", str "image/jpeg"),
   (str "jpeg", str "image/jpeg"), (str "gif", str "image/gif"),
   (str "bmp", str "image/bmp"), (str "webp", str "image/webp"),
   (str "tiff", str "image/tiff"), (str "txt", str "text/plain")]

/-- Extension-based content-type guess; see `guessTable`. -/
def guess_type (name : List Char) : Option (List Char) :=
  if decide ('.' ∈ name) then guessTable.lookup (lowerStr (afterLastDot name))
  else none

/-- A UTC wall-clock instant at second resolution, the data `_ts` reads from
`datetime.now(timezone.utc)`. -/
structure UTCTime where
  year : Nat
  month : Nat
  day : Nat
  hour : Nat
  minute : Nat
  second : Nat
deriving DecidableEq

/-- Field ranges of a real clock reading: calendar bounds, and a four-digit
year (every strftime implementation prints the year of such an instant with
exactly four digits). -/
def ValidTime (t : UTCTime) : Prop :=
  1000 ≤ t.year ∧ t.year ≤ 9999 ∧ 1 ≤ t.month ∧ t.month ≤ 12 ∧
    1 ≤ t.day ∧ t.day ≤ 31 ∧ t.hour ≤ 23 ∧ t.minute ≤ 59 ∧ t.second ≤ 59

instance (t : UTCTime) : Decidable (ValidTime t) := by
  unfold ValidTime; exact inferInstance

/-- Chronological order of two instants: lexicographic on the fields from
most to least significant. -/
def chronLt (a b : UTCTime) : Prop :=
  a.year < b.year ∨ (a.year = b.year ∧
    (a.month < b.month ∨ (a.month = b.month ∧
      (a.day < b.day ∨ (a.day = b.day ∧
        (a.hour < b.hour ∨ (a.hour = b.hour ∧
          (a.minute < b.minute ∨ (a.minute = b.minute ∧
            a.second < b.second)))))))))

instance (a b : UTCTime) : Decidable (chronLt a b) := by
  unfold chronLt; exact inferInstance

/-- Fixed-width zero-padded decimal numeral, most significant digit first:
`padNat w n` always has exactly w characters, and for n below 10 ^ w they
are the w-digit decimal numeral of n. -/
def padNat : Nat → Nat → List Char
  | 0, _ => []
  | w + 1, n => Nat.digitChar (n / 10 ^ w) :: padNat w (n % 10 ^ w)

/-- Model of `_ts` (src/app.py line 41):
`datetime.now(timezone.utc).strftime("%Y%m%dT%H%M%S")`, as a function of the
clock reading. -/
def _ts (now : UTCTime) : List Char :=
  padNat 4 now.year ++ padNat 2 now.month ++ padNat 2 now.day ++
    'T' :: (padNat 2 now.hour ++ padNat 2 now.minute ++ padNat 2 now.second)

/-- The upload object key (src/app.py line 82):
`f"{_ts()}-{_sanitize(f.filename)}"`. -/
def uploadBlobName (now : UTCTime) (filename : List Char) : List Char :=
  _ts now ++ '-' :: _sanitize filename

/-- The container client `cc`, as the handlers see it: its reported base URL
(`cc.url`, the empty string models a falsy value under
`getattr(cc, "url", None)`) and the outcome of `get_container_properties()`
on the external service, which is a property of the environment, not of this
program. -/
structure ContainerClient where
  url : List Char
  propsCheck : Except (List Char) Unit

/-- One uploaded blob: name, content type, payload bytes. -/
abbrev Store := List (List Char × List Char × List Nat)

/-- Azure `upload_blob` with `overwrite=True`: an idempotent
overwrite-by-key write. -/
def putBlob (store : Store) (name mt : List Char) (data : List Nat) : Store :=
  (name, mt, data) :: store.filter (fun e => !(e.1 == name))

/-- One part of a multipart upload request, as werkzeug's FileStorage
presents it: the client-supplied filename and content type (empty models a
missing value) and the payload. -/
structure FilePart where
  filename : List Char
  mimetype : List Char
  content : List Nat

/-- Model of `_blob_url` (src/app.py line 44): prefer the container client's
URL when it is set and truthy, otherwise compose
`f"{STORAGE_ACCOUNT_URL.rstrip('/')}/{CONTAINER_NAME}/{blob_name}"`. -/
def _blob_url (cc : Option ContainerClient) (acct cont name : List Char) :
    List Char :=
  match cc with
  | some client =>
    if !client.url.isEmpty then client.url ++ '/' :: name
    else rstrip (fun x => x == '/') acct ++ '/' :: (cont ++ '/' :: name)
  | none => rstrip (fun x => x == '/') acct ++ '/' :: (cont ++ '/' :: name)

/-- Content-type resolution in the upload handler (src/app.py line 78):
`f.mimetype or mimetypes.guess_type(f.filename)[0] or "application/octet-stream"`. -/
def resolveMimetype (f : FilePart) : List Char :=
  if !f.mimetype.isEmpty then f.mimetype
  else
    match guess_type f.filename with
    | some m => m
    | none => str "application/octet-stream"

/-- JSON-plus-status response of the upload handler.  Message texts are
abbreviated; no claim concerns their exact wording. -/
structure UploadResp where
  ok : Bool
  status : Nat
  url : Option (List Char)
  error : Option (List Char)
deriving DecidableEq

/-- Model of the `upload` handler (src/app.py lines 65-98).  The request
either carries a file part or not (`request.files.get("file")`); a present
part with an empty filename is falsy as a FileStorage, so it takes the same
`missing file` branch, and the source's separate empty-filename branch is
unreachable but embedded anyway.  The `putErr` parameter is the outcome of
the external `upload_blob` call, caught by the handler's blanket
`except` as a 500; the store is taken to be unchanged when the write
fails. -/
def upload (cc : Option ContainerClient) (acct cont : List Char)
    (now : UTCTime) (file : Option FilePart)
    (putErr : Option (List Char)) (store : Store) : UploadResp × Store :=
  match cc with
  | none => (⟨false, 503, none, some (str "storage not configured")⟩, store)
  | some client =>
    match file with
    | none => (⟨false, 400, none, some (str "missing file")⟩, store)
    | some f =>
      if f.filename.isEmpty then
        (⟨false, 400, none, some (str "missing file")⟩, store)
      else if f.filename.isEmpty then
        (⟨false, 400, none, some (str "empty filename")⟩, store)
      else if !_is_allowed_file f.filename then
        (⟨false, 400, none, some (str "invalid file type")⟩, store)
      else
        let mt := resolveMimetype f
        if !_is_image_mt mt then
          (⟨false, 415, none, some (str "not an image")⟩, store)
        else
          let blob_name := uploadBlobName now f.filename
          match putErr with
          | some e => (⟨false, 500, none, some e⟩, store)
          | none =>
            (⟨true, 200, some (_blob_url (some client) acct cont blob_name), none⟩,
              putBlob store blob_name mt f.content)

/-- The descending comparison Python's `urls.sort(reverse=True)` sorts by. -/
def descR (a b : List Char) : Prop := b ≤ a

instance : DecidableRel descR := fun a b => (inferInstance : Decidable (b ≤ a))

instance : IsTotal (List Char) descR := ⟨fun a b => (le_total b a)⟩

instance : IsTrans (List Char) descR := ⟨fun _ _ _ hab hbc => le_trans hbc hab⟩

/-- Python's stable in-place sort with `reverse=True`, on strings. -/
def sortDescStr (l : List (List Char)) : List (List Char) :=
  List.insertionSort descR l

/-- JSON-plus-status response of the gallery handler. -/
structure GalleryResp where
  ok : Bool
  status : Nat
  gallery : Option (List (List Char))
  error : Option (List Char)
deriving DecidableEq

/-- Model of the `gallery` handler (src/app.py lines 101-110).  The
`listNames` parameter is the outcome of iterating `cc.list_blobs()` on the
external store: the blob names it yields, or the error the handler's
`except` turns into a 500. -/
def gallery (cc : Option ContainerClient) (acct cont : List Char)
    (listNames : Except (List Char) (List (List Char))) : GalleryResp :=
  match cc with
  | none => ⟨false, 503, none, some (str "storage not configured")⟩
  | some client =>
    match listNames with
    | .error e => ⟨false, 500, none, some e⟩
    | .ok names =>
      ⟨true, 200,
        some (sortDescStr (names.map (fun n => _blob_url (some client) acct cont n))),
        none⟩

/-- Status-plus-JSON response of the health handler. -/
structure HealthResp where
  code : Nat
  status : List Char
  message : List Char
deriving DecidableEq

/-- Model of the `health` handler (src/app.py lines 113-123): 503 UNHEALTHY
when no client is configured, then 200 OK or 503 DEGRADED by the outcome of
`get_container_properties()`. -/
def health (cc : Option ContainerClient) : HealthResp :=
  match cc with
  | none => ⟨503, str "UNHEALTHY", str "storage client not set up"⟩
  | some client =>
    match client.propsCheck with
    | .ok _ => ⟨200, str "OK", str "storage connection successful"⟩
    | .error e => ⟨503, str "DEGRADED", str "storage connection failed: " ++ e⟩

/-- Number of adjacent double-slash pairs in a string (occurrences of the
two-character pattern, counted at every position). -/
def dslashCount : List Char → Nat
  | [] => 0
  | [_] => 0
  | a :: b :: rest => (if a = '/' ∧ b = '/' then 1 else 0) + dslashCount (b :: rest)

/-! ### Helper lemmas -/

/-- A successful association-list lookup returns a listed pair. -/
theorem mem_of_lookup_some {α β : Type} [BEq α] [LawfulBEq α] :
    ∀ {l : List (α × β)} {a : α} {b : β}, l.lookup a = some b → (a, b) ∈ l := by
  intro l
  induction l with
  | nil => intro a b h; simp [List.lookup] at h
  | cons p rest ih =>
    intro a b h
    rw [List.lookup] at h
    cases hbe : (a == p.1) with
    | true =>
      rw [hbe] at h
      obtain rfl : p.2 = b := by simpa using h
      obtain rfl : a = p.1 := by simpa using hbe
      exact List.mem_cons_self _ _
    | false =>
      rw [hbe] at h
      exact List.mem_cons_of_mem _ (ih h)

/-- Every content type in the guess table is non-empty. -/
theorem guess_type_ne_nil {name m : List Char} (h : guess_type name = some m) :
    m ≠ [] := by
  unfold guess_type at h
  split_ifs at h
  have hmem := mem_of_lookup_some h
  have hall : ∀ p ∈ guessTable, p.2 ≠ ([] : List Char) := by decide
  exact hall _ hmem

/-- The resolved content type of the upload handler is never the empty
string: the client value is only used when non-empty, the guess table has no
empty entries, and the final fallback is a literal. -/
theorem resolveMimetype_ne_nil (f : FilePart) : resolveMimetype f ≠ [] := by
  unfold resolveMimetype
  split_ifs with h
  · simpa using h
  · cases hg : guess_type f.filename with
    | none => simp [str]
    | some m => exact guess_type_ne_nil hg

/-! ### Claim C1 — sanitizer output character set and (non-)emptiness -/

/-- C1 (counterexample): the input "/" consists of a single path separator,
and the sanitizer maps it to the empty string, so the output is not
non-empty and does not match a one-or-more-characters pattern.  The default
base name is substituted before secure_filename runs, not after, so an input
that secure_filename erases entirely yields an empty output. -/
theorem sanitize_slash_is_empty :
    '/' ∈ str "/" ∧ _sanitize (str "/") = [] := by decide

/-- C1 (amended): for every input string, every character of the sanitizer's
output lies in the class A-Z a-z 0-9 dot underscore hyphen; in particular
the output never contains a forward or backward slash, so for any input
containing path separators the output contains none.  The output can be
empty. -/
theorem sanitize_output_safe (name : List Char) :
    (∀ c ∈ _sanitize name, isSafeChar c = true) ∧
    '/' ∉ _sanitize name ∧ '\\' ∉ _sanitize name := by
  have h : ∀ c ∈ _sanitize name, isSafeChar c = true := by
    intro c hc
    simp only [_sanitize, List.mem_map] at hc
    obtain ⟨a, _, rfl⟩ := hc
    by_cases hs : isSafeChar a = true
    · simp [hs]
    · rw [if_neg hs]
      decide
  exact ⟨h, fun hm => absurd (h _ hm) (by decide),
    fun hm => absurd (h _ hm) (by decide)⟩

/-- C1 (witness): a concrete application of the amended theorem, at an input
containing a path separator. -/
theorem sanitize_output_safe_witness : isSafeChar 'p' = true :=
  (sanitize_output_safe (str "a/p")).1 'p' (by decide)

/-! ### Claim C4 — the extension check -/

/-- C4: the extension check accepts a filename exactly when it contains a
dot and the lowercased suffix after the last dot is in the allow-list, and
the two example files behave as the spec says. -/
theorem allowed_file_iff (name : List Char) :
    (_is_allowed_file name = true ↔
      '.' ∈ name ∧ lowerStr (afterLastDot name) ∈ ALLOWED_EXT) ∧
    _is_allowed_file (str "photo.png") = true ∧
    _is_allowed_file (str "photo.txt") = false := by
  refine ⟨?_, by decide, by decide⟩
  simp [_is_allowed_file]

/-! ### Claim C10 — unconfigured store short-circuits the upload handler -/

/-- C10: with no store client configured, every upload request, whatever its
file part (missing, empty filename, disallowed extension, or valid), gets a
503 with ok false, and the store is untouched: the configuration check is
the first thing the handler does. -/
theorem upload_unconfigured_503 (acct cont : List Char) (now : UTCTime)
    (file : Option FilePart) (putErr : Option (List Char)) (store : Store) :
    (upload none acct cont now file putErr store).1.status = 503 ∧
    (upload none acct cont now file putErr store).1.ok = false ∧
    (upload none acct cont now file putErr store).2 = store :=
  ⟨rfl, rfl, rfl⟩

/-! ### Claim C3 — validation failures happen before any write -/

/-- C3: whenever the upload handler answers 400 or 415, the store it returns
is exactly the store it was given: no put operation has happened. -/
theorem upload_no_write_on_reject (cc : Option ContainerClient)
    (acct cont : List Char) (now : UTCTime) (file : Option FilePart)
    (putErr : Option (List Char)) (store : Store)
    (h : (upload cc acct cont now file putErr store).1.status = 400 ∨
      (upload cc acct cont now file putErr store).1.status = 415) :
    (upload cc acct cont now file putErr store).2 = store := by
  rcases cc with _ | client
  · rfl
  rcases file with _ | f
  · rfl
  by_cases h1 : f.filename.isEmpty
  · simp [upload, h1]
  by_cases h2 : _is_allowed_file f.filename
  · by_cases h3 : _is_image_mt (resolveMimetype f)
    · rcases putErr with _ | e
      · exfalso
        simp [upload, h1, h2, h3] at h
      · simp [upload, h1, h2, h3]
    · simp [upload, h1, h2, h3]
  · simp [upload, h1, h2]

/-- C3 (witness): a request with a disallowed extension is answered without
touching the store. -/
theorem upload_no_write_on_reject_witness :
    (upload (some ⟨[], Except.ok ()⟩) [] [] ⟨2024, 1, 1, 0, 0, 0⟩
      (some ⟨str "photo.txt", [], []⟩) none []).2 = [] :=
  upload_no_write_on_reject (some ⟨[], Except.ok ()⟩) [] [] ⟨2024, 1, 1, 0, 0, 0⟩
    (some ⟨str "photo.txt", [], []⟩) none [] (Or.inl (by decide))

/-! ### Claim C7 — the health endpoint distinguishes its failure causes -/

/-- C7: no client configured gives 503 UNHEALTHY; a configured client whose
container-properties check succeeds gives 200 OK; a configured client whose
check fails gives 503 DEGRADED. -/
theorem health_cases (client : ContainerClient) (e : List Char) :
    ((health none).code = 503 ∧ (health none).status = str "UNHEALTHY") ∧
    (client.propsCheck = Except.ok () →
      (health (some client)).code = 200 ∧ (health (some client)).status = str "OK") ∧
    (client.propsCheck = Except.error e →
      (health (some client)).code = 503 ∧
        (health (some client)).status = str "DEGRADED") := by
  refine ⟨⟨rfl, rfl⟩, ?_, ?_⟩
  · intro h; simp [health, h]
  · intro h; simp [health, h]

/-- C7 (witness): the three branches at concrete clients. -/
theorem health_cases_witness :
    (health (some ⟨[], Except.ok ()⟩)).code = 200 ∧
    (health (some ⟨[], Except.ok ()⟩)).status = str "OK" :=
  (health_cases ⟨[], Except.ok ()⟩ []).2.1 rfl

/-! ### Claim C5 — content-type resolution and the 415 gate -/

/-- C5: the upload handler resolves the content type as the client-supplied
value when present, else the extension-based guess, else the generic binary
type; and, for a request that has passed the earlier checks (store
configured, file present with a non-empty, allowed filename), it answers 415
exactly when the resolved content type does not begin with image/. -/
theorem upload_mime_gate (client : ContainerClient) (acct cont : List Char)
    (now : UTCTime) (f : FilePart) (putErr : Option (List Char)) (store : Store)
    (hname : f.filename ≠ []) (hext : _is_allowed_file f.filename = true) :
    (f.mimetype ≠ [] → resolveMimetype f = f.mimetype) ∧
    (∀ m, f.mimetype = [] → guess_type f.filename = some m →
      resolveMimetype f = m) ∧
    (f.mimetype = [] → guess_type f.filename = none →
      resolveMimetype f = str "application/octet-stream") ∧
    ((upload (some client) acct cont now (some f) putErr store).1.status = 415 ↔
      (str "image/").isPrefixOf (resolveMimetype f) = false) := by
  have hne : ¬ f.filename.isEmpty := by simpa using hname
  refine ⟨?_, ?_, ?_, ?_⟩
  · intro hm
    simp [resolveMimetype, List.isEmpty_iff, hm]
  · intro m hm hg
    simp [resolveMimetype, hm, hg]
  · intro hm hg
    simp [resolveMimetype, hm, hg]
  · have hnn : resolveMimetype f ≠ [] := resolveMimetype_ne_nil f
    by_cases h3 : _is_image_mt (resolveMimetype f)
    · have hpre : (str "image/").isPrefixOf (resolveMimetype f) = true := by
        have := h3
        unfold _is_image_mt at this
        exact (Bool.and_eq_true _ _).mp this |>.2
      rcases putErr with _ | e
      · simp [upload, hne, hext, h3, hpre]
      · simp [upload, hne, hext, h3, hpre]
    · have hpre : (str "image/").isPrefixOf (resolveMimetype f) = false := by
        unfold _is_image_mt at h3
        rcases Bool.eq_false_or_eq_true
            ((str "image/").isPrefixOf (resolveMimetype f)) with ht | hf
        · exfalso
          apply h3
          have hb : (!(resolveMimetype f).isEmpty) = true := by
            simpa [List.isEmpty_iff] using hnn
          simp [hb, ht]
        · exact hf
      simp [upload, hne, hext, h3, hpre]

/-- C5 (witness): the spec's example pair, a png filename with a generic
binary client content type, is rejected with 415. -/
theorem upload_mime_gate_witness :
    (upload (some ⟨[], Except.ok ()⟩) [] [] ⟨2024, 1, 1, 0, 0, 0⟩
      (some ⟨str "malware.png", str "application/octet-stream", []⟩)
      none []).1.status = 415 :=
  (upload_mime_gate ⟨[], Except.ok ()⟩ [] [] ⟨2024, 1, 1, 0, 0, 0⟩
    ⟨str "malware.png", str "application/octet-stream", []⟩ none []
    (by decide) (by decide)).2.2.2.mpr (by decide)

/-! ### Claim C8 — sanitizer output length -/

/-- Joining one more word costs at most the word plus one separator. -/
theorem joinU_cons_length (w : List Char) (l : List (List Char)) :
    (joinU (w :: l)).length ≤ w.length + 1 + (joinU l).length := by
  cases l with
  | nil => simp [joinU]
  | cons x xs =>
    simp [joinU]
    omega

/-- Splitting on whitespace and rejoining with underscores never lengthens a
string (each separator replaces at least one whitespace character). -/
theorem joinU_splitAux_length (s : List Char) :
    ∀ acc, (joinU (splitAux acc s)).length ≤ s.length + acc.length := by
  induction s with
  | nil =>
    intro acc
    by_cases ha : acc.isEmpty
    · simp [splitAux, ha, joinU]
    · simp [splitAux, ha, joinU]
  | cons c rest ih =>
    intro acc
    by_cases hsp : isPySpace c
    · by_cases ha : acc.isEmpty
      · have h2 := ih []
        simp only [List.length_nil, Nat.add_zero] at h2
        simp [splitAux, hsp, ha]
        omega
      · have h1 := joinU_cons_length acc.reverse (splitAux [] rest)
        have h2 := ih []
        simp only [List.length_nil, Nat.add_zero] at h2
        simp only [List.length_reverse] at h1
        simp [splitAux, hsp, ha]
        omega
    · have h2 := ih (c :: acc)
      simp only [List.length_cons] at h2
      simp [splitAux, hsp]
      omega

/-- ASCII characters are fixed by the NFKD-and-encode fold. -/
theorem asciiFold_ascii {c : Char} (h : c.toNat < 128) : asciiFold c = [c] := by
  unfold asciiFold
  rw [if_pos h]

/-- On an all-ASCII string the fold preserves length. -/
theorem asciiFold_flatten_length {s : List Char} (h : ∀ c ∈ s, c.toNat < 128) :
    ((s.map asciiFold).flatten).length = s.length := by
  induction s with
  | nil => rfl
  | cons c rest ih =>
    have hc := h c (List.mem_cons_self _ _)
    have hr := ih (fun x hx => h x (List.mem_cons_of_mem _ hx))
    simp [asciiFold_ascii hc, hr]

/-- Model of the werkzeug pipeline: on ASCII input it never lengthens the
string (every stage deletes or preserves; the underscore join replaces
whitespace one-for-one at the points it keeps). -/
theorem secure_filename_length_le {s : List Char} (h : ∀ c ∈ s, c.toNat < 128) :
    (secure_filename s).length ≤ s.length := by
  unfold secure_filename pyStrip rstrip
  have l1 : ((s.map asciiFold).flatten).length = s.length := asciiFold_flatten_length h
  have l2 : (replaceSep ((s.map asciiFold).flatten)).length = s.length := by
    unfold replaceSep
    rw [List.length_map]
    exact l1
  have l3 := joinU_splitAux_length (replaceSep ((s.map asciiFold).flatten)) []
  set t := joinU (pySplit (replaceSep ((s.map asciiFold).flatten))) with ht
  have l4 : t.length ≤ s.length := by
    rw [ht]
    unfold pySplit
    simpa [l2] using l3
  have l5 : (List.filter isSafeChar t).length ≤ t.length := List.length_filter_le _ _
  set u := (List.filter isSafeChar t).dropWhile (fun c => c == '.' || c == '_') with hu
  have l6 : u.length ≤ (List.filter isSafeChar t).length := by
    rw [hu]
    exact List.Sublist.length_le (List.dropWhile_sublist _)
  have l7 : ((u.reverse.dropWhile (fun c => c == '.' || c == '_')).reverse).length
      ≤ u.length := by
    rw [List.length_reverse]
    calc (u.reverse.dropWhile (fun c => c == '.' || c == '_')).length
        ≤ u.reverse.length := List.Sublist.length_le (List.dropWhile_sublist _)
      _ = u.length := List.length_reverse u
  omega

/-- C8 (counterexample): the empty input is sanitized to the five-character
default base name, and the one-character ligature input (whose NFKD
decomposition is two ASCII characters) is sanitized to a two-character
output; in both cases the output is strictly longer than the input. -/
theorem sanitize_length_cex :
    ((str "").length = 0 ∧ (_sanitize (str "")).length = 5) ∧
    (['ﬁ'].length = 1 ∧ (_sanitize ['ﬁ']).length = 2) := by decide

/-- C8 (amended): for every non-empty input string of ASCII characters, the
length of the sanitizer's output is at most the length of the input. -/
theorem sanitize_length_le (name : List Char) (h1 : name ≠ [])
    (h2 : ∀ c ∈ name, c.toNat < 128) :
    (_sanitize name).length ≤ name.length := by
  unfold _sanitize
  have he : name.isEmpty = false := by
    simpa [List.isEmpty_iff] using h1
  simp only [he, Bool.false_eq_true, if_false, List.length_map]
  exact secure_filename_length_le h2

/-- C8 (witness): a concrete non-empty ASCII input. -/
theorem sanitize_length_le_witness :
    (_sanitize (str "my file.png")).length ≤ (str "my file.png").length :=
  sanitize_length_le (str "my file.png") (by decide) (by decide)

/-! ### Claim C2 — key format and ordering -/

/-- A padded numeral always has exactly its width. -/
theorem padNat_length : ∀ (w n : Nat), (padNat w n).length = w := by
  intro w
  induction w with
  | zero => intro n; rfl
  | succ v ih => intro n; simp [padNat, ih]

/-- Digit characters are ordered like the digits. -/
theorem digitChar_lt {a b : Nat} (hab : a < b) (hb : b < 10) :
    Nat.digitChar a < Nat.digitChar b := by
  interval_cases b <;> interval_cases a <;> decide

/-- Fixed-width zero-padded numerals of the same width compare
lexicographically like the numbers they print. -/
theorem padNat_lt : ∀ (w : Nat) {m n : Nat}, m < n → n < 10 ^ w →
    List.Lex (· < ·) (padNat w m) (padNat w n) := by
  intro w
  induction w with
  | zero =>
    intro m n hmn hn
    simp at hn
    omega
  | succ v ih =>
    intro m n hmn hn
    have hpos : 0 < 10 ^ v := Nat.pos_pow_of_pos v (by omega)
    have hq : m / 10 ^ v ≤ n / 10 ^ v := Nat.div_le_div_right (le_of_lt hmn)
    rcases lt_or_eq_of_le hq with hlt | heq
    · have hnq : n / 10 ^ v < 10 := by
        rw [Nat.div_lt_iff_lt_mul hpos]
        calc n < 10 ^ (v + 1) := hn
          _ = 10 * 10 ^ v := by ring
      exact List.Lex.rel (digitChar_lt hlt hnq)
    · have em := Nat.div_add_mod m (10 ^ v)
      have en := Nat.div_add_mod n (10 ^ v)
      have heq' : 10 ^ v * (m / 10 ^ v) = 10 ^ v * (n / 10 ^ v) := by rw [heq]
      have hmod : m % 10 ^ v < n % 10 ^ v := by omega
      have hbound : n % 10 ^ v < 10 ^ v := Nat.mod_lt _ hpos
      simp only [padNat, heq]
      exact List.Lex.cons (ih hmod hbound)

/-- Splitting a padded numeral at a digit boundary. -/
theorem padNat_split : ∀ (w1 : Nat) {w2 a b : Nat}, a < 10 ^ w1 → b < 10 ^ w2 →
    padNat (w1 + w2) (a * 10 ^ w2 + b) = padNat w1 a ++ padNat w2 b := by
  intro w1
  induction w1 with
  | zero =>
    intro w2 a b ha hb
    have ha0 : a = 0 := by simpa using ha
    subst ha0
    simp [padNat, Nat.zero_add]
  | succ w ih =>
    intro w2 a b ha hb
    have hpos : 0 < 10 ^ w := Nat.pos_pow_of_pos w (by omega)
    have hD : 0 < 10 ^ (w + w2) := Nat.pos_pow_of_pos _ (by omega)
    have hdm := Nat.div_add_mod a (10 ^ w)
    have hmlt : a % 10 ^ w < 10 ^ w := Nat.mod_lt _ hpos
    have hd : a * 10 ^ w2 + b
        = 10 ^ (w + w2) * (a / 10 ^ w) + ((a % 10 ^ w) * 10 ^ w2 + b) := by
      calc a * 10 ^ w2 + b
          = (10 ^ w * (a / 10 ^ w) + a % 10 ^ w) * 10 ^ w2 + b := by rw [hdm]
        _ = 10 ^ (w + w2) * (a / 10 ^ w) + ((a % 10 ^ w) * 10 ^ w2 + b) := by
            rw [pow_add]; ring
    have hrlt : (a % 10 ^ w) * 10 ^ w2 + b < 10 ^ (w + w2) := by
      calc (a % 10 ^ w) * 10 ^ w2 + b
          < (a % 10 ^ w) * 10 ^ w2 + 10 ^ w2 := Nat.add_lt_add_left hb _
        _ = ((a % 10 ^ w) + 1) * 10 ^ w2 := by ring
        _ ≤ 10 ^ w * 10 ^ w2 := Nat.mul_le_mul_right _ hmlt
        _ = 10 ^ (w + w2) := by rw [pow_add]
    have hrw : w + 1 + w2 = (w + w2) + 1 := by omega
    rw [hrw]
    have key1 : (a * 10 ^ w2 + b) / 10 ^ (w + w2) = a / 10 ^ w := by
      rw [hd, Nat.mul_add_div hD, Nat.div_eq_of_lt hrlt]
      omega
    have key2 : (a * 10 ^ w2 + b) % 10 ^ (w + w2)
        = (a % 10 ^ w) * 10 ^ w2 + b := by
      rw [hd, Nat.mul_add_mod, Nat.mod_eq_of_lt hrlt]
    show Nat.digitChar ((a * 10 ^ w2 + b) / 10 ^ (w + w2))
        :: padNat (w + w2) ((a * 10 ^ w2 + b) % 10 ^ (w + w2))
        = padNat (w + 1) a ++ padNat w2 b
    rw [key1, key2, ih hmlt hb]
    rfl

/-- Specialization of `padNat_split` to a two-digit tail. -/
theorem padNat_split2 (w1 a b : Nat) (ha : a < 10 ^ w1) (hb : b < 100) :
    padNat (w1 + 2) (a * 100 + b) = padNat w1 a ++ padNat 2 b := by
  have h := @padNat_split w1 2 a b ha (by norm_num; exact hb)
  norm_num at h
  exact h

/-- Lexicographic comparison of equal-length blocks extends to any
suffixes. -/
theorem lex_append_of_lex : ∀ {a1 a2 : List Char},
    List.Lex (· < ·) a1 a2 → a1.length = a2.length →
    ∀ (b1 b2 : List Char), List.Lex (· < ·) (a1 ++ b1) (a2 ++ b2) := by
  intro a1 a2 h
  induction h with
  | nil =>
    intro hlen
    simp at hlen
  | rel hab =>
    intro _ b1 b2
    exact List.Lex.rel hab
  | cons h ih =>
    intro hlen b1 b2
    exact List.Lex.cons (ih (by simpa using hlen) b1 b2)

/-- Lexicographic comparison is preserved under a common prefix. -/
theorem lex_append_left (p : List Char) {b1 b2 : List Char}
    (h : List.Lex (· < ·) b1 b2) :
    List.Lex (· < ·) (p ++ b1) (p ++ b2) := by
  induction p with
  | nil => exact h
  | cons c cs ih => exact List.Lex.cons ih

/-- The date half of the timestamp as one number, YYYYMMDD. -/
def dateVal (t : UTCTime) : Nat := (t.year * 100 + t.month) * 100 + t.day

/-- The time half of the timestamp as one number, HHMMSS. -/
def timeVal (t : UTCTime) : Nat := (t.hour * 100 + t.minute) * 100 + t.second

/-- Chronological order of valid instants agrees with numeric order of the
two timestamp halves. -/
theorem chronLt_val {a b : UTCTime} (ha : ValidTime a) (hb : ValidTime b)
    (h : chronLt a b) :
    dateVal a < dateVal b ∨ (dateVal a = dateVal b ∧ timeVal a < timeVal b) := by
  unfold ValidTime at ha hb
  unfold chronLt at h
  unfold dateVal timeVal
  omega

/-- The strftime output is the two padded halves around the literal T. -/
theorem ts_decompose (t : UTCTime) (ht : ValidTime t) :
    _ts t = padNat 8 (dateVal t) ++ 'T' :: padNat 6 (timeVal t) := by
  obtain ⟨h1, h2, h3, h4, h5, h6, h7, h8, h9⟩ := ht
  have hy : t.year < 10 ^ 4 := by norm_num; omega
  have hym : t.year * 100 + t.month < 10 ^ 6 := by norm_num; omega
  have hh : t.hour < 10 ^ 2 := by norm_num; omega
  have hhm : t.hour * 100 + t.minute < 10 ^ 4 := by norm_num; omega
  have hd8 : padNat 8 (dateVal t)
      = (padNat 4 t.year ++ padNat 2 t.month) ++ padNat 2 t.day := by
    unfold dateVal
    rw [show (8 : Nat) = 6 + 2 from rfl]
    rw [padNat_split2 6 _ _ hym (by omega)]
    rw [show (6 : Nat) = 4 + 2 from rfl]
    rw [padNat_split2 4 _ _ hy (by omega)]
  have ht6 : padNat 6 (timeVal t)
      = (padNat 2 t.hour ++ padNat 2 t.minute) ++ padNat 2 t.second := by
    unfold timeVal
    rw [show (6 : Nat) = 4 + 2 from rfl]
    rw [padNat_split2 4 _ _ hhm (by omega)]
    rw [show (4 : Nat) = 2 + 2 from rfl]
    rw [padNat_split2 2 _ _ hh (by omega)]
  rw [hd8, ht6]
  unfold _ts
  simp [List.append_assoc]

/-- Chronologically ordered valid instants have lexicographically ordered
timestamps. -/
theorem ts_lex_of_chronLt {a b : UTCTime} (ha : ValidTime a) (hb : ValidTime b)
    (h : chronLt a b) : List.Lex (· < ·) (_ts a) (_ts b) := by
  have hdb : dateVal b < 10 ^ 8 := by
    obtain ⟨h1, h2, h3, h4, h5, h6, h7, h8, h9⟩ := hb
    unfold dateVal
    norm_num
    omega
  have htb : timeVal b < 10 ^ 6 := by
    obtain ⟨h1, h2, h3, h4, h5, h6, h7, h8, h9⟩ := hb
    unfold timeVal
    norm_num
    omega
  rw [ts_decompose a ha, ts_decompose b hb]
  rcases chronLt_val ha hb h with hd | ⟨hde, htl⟩
  · exact lex_append_of_lex (padNat_lt 8 hd hdb)
      (by rw [padNat_length, padNat_length]) _ _
  · rw [hde]
    apply lex_append_left
    exact List.Lex.cons (padNat_lt 6 htl htb)

/-- C2: the upload key is the fixed-width (15-character) second-resolution
timestamp, a hyphen, and the sanitized name; two generations in the same
second with the same sanitized name give equal keys; and keys generated at
chronologically ordered valid instants are lexicographically ordered,
whatever the filenames. -/
theorem upload_key_order (a b : UTCTime) (n1 n2 : List Char)
    (ha : ValidTime a) (hb : ValidTime b) :
    (_ts a).length = 15 ∧
    uploadBlobName a n1 = _ts a ++ '-' :: _sanitize n1 ∧
    (a = b → _sanitize n1 = _sanitize n2 →
      uploadBlobName a n1 = uploadBlobName b n2) ∧
    (chronLt a b →
      List.Lex (· < ·) (uploadBlobName a n1) (uploadBlobName b n2)) := by
  refine ⟨?_, rfl, ?_, ?_⟩
  · simp [_ts, padNat_length]
  · rintro rfl hsan
    unfold uploadBlobName
    rw [hsan]
  · intro hc
    have hlex := ts_lex_of_chronLt ha hb hc
    have hlen : (_ts a).length = (_ts b).length := by
      simp [_ts, padNat_length]
    unfold uploadBlobName
    exact lex_append_of_lex hlex hlen _ _

/-- C2 (witness): two concrete instants one day apart, with concrete
names. -/
theorem upload_key_order_witness :
    List.Lex (· < ·)
      (uploadBlobName ⟨2024, 1, 1, 0, 0, 0⟩ (str "a.png"))
      (uploadBlobName ⟨2024, 1, 2, 0, 0, 0⟩ (str "b.png")) :=
  (upload_key_order ⟨2024, 1, 1, 0, 0, 0⟩ ⟨2024, 1, 2, 0, 0, 0⟩
    (str "a.png") (str "b.png") (by decide) (by decide)).2.2.2 (by decide)

/-! ### Claim C6 — gallery ordering -/

/-- Strict comparison of lists is cancelled by a common prefix. -/
theorem lt_append_cancel (p : List Char) (a b : List Char) :
    p ++ a < p ++ b ↔ a < b := by
  constructor
  · intro h
    induction p with
    | nil => exact h
    | cons c cs ih =>
      apply ih
      cases h with
      | cons h' => exact h'
      | rel hr => exact absurd hr (lt_irrefl c)
  · intro h
    induction p with
    | nil => exact h
    | cons c cs ih => exact List.Lex.cons ih

/-- Weak comparison of lists is cancelled by a common prefix. -/
theorem le_append_cancel (p : List Char) (a b : List Char) :
    p ++ a ≤ p ++ b ↔ a ≤ b := by
  rw [← not_lt, ← not_lt]
  exact not_congr (lt_append_cancel p b a)

/-- Reduction of `_blob_url` at a present client. -/
theorem blob_url_some (c : ContainerClient) (acct cont n : List Char) :
    _blob_url (some c) acct cont n
      = if (!c.url.isEmpty) = true then c.url ++ '/' :: n
        else rstrip (fun x => x == '/') acct ++ '/' :: (cont ++ '/' :: n) := rfl

/-- Every blob URL for a fixed configuration is a fixed base followed by the
blob name. -/
theorem blob_url_eq_base (c : ContainerClient) (acct cont : List Char) :
    ∃ p, ∀ n, _blob_url (some c) acct cont n = p ++ n := by
  by_cases h : (!c.url.isEmpty) = true
  · refine ⟨c.url ++ ['/'], fun n => ?_⟩
    rw [blob_url_some, if_pos h]
    simp
  · refine ⟨rstrip (fun x => x == '/') acct ++ '/' :: (cont ++ ['/']), fun n => ?_⟩
    rw [blob_url_some, if_neg h]
    simp

/-- Blob URLs at one configuration compare exactly as the underlying blob
names do. -/
theorem blob_url_le_iff (c : ContainerClient) (acct cont : List Char)
    (n1 n2 : List Char) :
    (_blob_url (some c) acct cont n1 ≤ _blob_url (some c) acct cont n2 ↔
      n1 ≤ n2) := by
  obtain ⟨p, hp⟩ := blob_url_eq_base c acct cont
  rw [hp n1, hp n2]
  exact le_append_cancel p n1 n2

/-- Blob URLs at one configuration compare strictly as the names do. -/
theorem blob_url_lt (c : ContainerClient) (acct cont : List Char)
    {n1 n2 : List Char} (h : n1 < n2) :
    _blob_url (some c) acct cont n1 < _blob_url (some c) acct cont n2 := by
  obtain ⟨p, hp⟩ := blob_url_eq_base c acct cont
  rw [hp n1, hp n2]
  exact (lt_append_cancel p n1 n2).mpr h

/-- C6: on a configured store, the gallery handler answers 200 with exactly
the URLs of all listed blob names, sorted descending; URL order coincides
with blob-name (key) order because every URL is the same base plus the name;
and on the spec's two-key example the newer key's URL comes first. -/
theorem gallery_sorted_desc (c : ContainerClient) (acct cont : List Char)
    (names : List (List Char)) :
    (gallery (some c) acct cont (Except.ok names)).status = 200 ∧
    (gallery (some c) acct cont (Except.ok names)).ok = true ∧
    (∃ urls, (gallery (some c) acct cont (Except.ok names)).gallery = some urls ∧
      urls.Perm (names.map (fun n => _blob_url (some c) acct cont n)) ∧
      List.Sorted descR urls) ∧
    (∀ n1 n2 : List Char,
      _blob_url (some c) acct cont n1 ≤ _blob_url (some c) acct cont n2 ↔
        n1 ≤ n2) ∧
    (gallery (some c) acct cont
        (Except.ok [str "20240101T000000-a.png", str "20240102T000000-b.png"])).gallery
      = some [_blob_url (some c) acct cont (str "20240102T000000-b.png"),
          _blob_url (some c) acct cont (str "20240101T000000-a.png")] := by
  refine ⟨rfl, rfl, ?_, ?_, ?_⟩
  · refine ⟨sortDescStr (names.map (fun n => _blob_url (some c) acct cont n)),
      rfl, ?_, ?_⟩
    · exact List.perm_insertionSort descR _
    · exact List.sorted_insertionSort descR _
  · exact blob_url_le_iff c acct cont
  · have hlt : _blob_url (some c) acct cont (str "20240101T000000-a.png")
        < _blob_url (some c) acct cont (str "20240102T000000-b.png") :=
      blob_url_lt c acct cont (by decide)
    have hnot : ¬ descR (_blob_url (some c) acct cont (str "20240101T000000-a.png"))
        (_blob_url (some c) acct cont (str "20240102T000000-b.png")) :=
      not_le.mpr hlt
    simp only [gallery, List.map]
    simp [sortDescStr, List.insertionSort, List.orderedInsert, hnot]

/-- C6 (witness): the handler's status at a concrete configuration and
store. -/
theorem gallery_sorted_desc_witness :
    (gallery (some ⟨str "https://acc.example/c", Except.ok ()⟩) [] []
      (Except.ok [str "x.png"])).status = 200 :=
  (gallery_sorted_desc ⟨str "https://acc.example/c", Except.ok ()⟩ [] []
    [str "x.png"]).1

/-! ### Claim C9 — URL construction -/

/-- Double-slash counting distributes over append when the seam is not a
double slash. -/
theorem dslashCount_append : ∀ (x y : List Char),
    (x.getLast? ≠ some '/' ∨ y.head? ≠ some '/') →
    dslashCount (x ++ y) = dslashCount x + dslashCount y := by
  intro x
  induction x with
  | nil => intro y _; simp [dslashCount]
  | cons a rest ih =>
    intro y h
    cases rest with
    | nil =>
      cases y with
      | nil => simp [dslashCount]
      | cons c ys =>
        have hna : ¬ (a = '/' ∧ c = '/') := by
          rcases h with h | h
          · intro hc; exact h (by simp [hc.1])
          · intro hc; exact h (by simp [hc.2])
        simp [dslashCount, hna]
    | cons b rest' =>
      have hh : ((b :: rest').getLast? ≠ some '/' ∨ y.head? ≠ some '/') := by
        rcases h with h | h
        · left; rwa [List.getLast?_cons_cons] at h
        · right; exact h
      have ih' := ih y hh
      simp only [List.cons_append] at ih' ⊢
      simp only [dslashCount] at ih' ⊢
      omega

/-- A string without slashes has no double slash. -/
theorem dslashCount_no_slash : ∀ {s : List Char}, '/' ∉ s → dslashCount s = 0 := by
  intro s
  induction s with
  | nil => intro _; rfl
  | cons a rest ih =>
    intro h
    cases rest with
    | nil => rfl
    | cons b r2 =>
      have ha : a ≠ '/' := fun e => h (by rw [e]; exact List.mem_cons_self _ _)
      have h2 := ih (fun hm => h (List.mem_cons_of_mem _ hm))
      simp only [dslashCount] at h2 ⊢
      have : ¬ (a = '/' ∧ b = '/') := fun hc => ha hc.1
      simp [this, h2]

/-- After a right strip of slashes the last character is not a slash. -/
theorem rstrip_slash_getLast (s : List Char) :
    (rstrip (fun x => x == '/') s).getLast? ≠ some '/' := by
  intro hx
  unfold rstrip at hx
  rw [List.getLast?_reverse] at hx
  have h := List.head?_dropWhile_not (fun x => x == '/') s.reverse
  rw [hx] at h
  simp at h

/-- C9: when the container client reports a (truthy) base URL the result is
that URL joined with the key; otherwise the result is composed from the
account URL with trailing slashes stripped, the container name and the key,
and — for a container name without slashes and a key not starting with a
slash — the composition introduces no double slash at the join points: every
double slash of the result was already inside the stripped account URL or
inside the key. -/
theorem blob_url_structure (c : ContainerClient) (acct cont name : List Char)
    (h1 : cont ≠ []) (h2 : '/' ∉ cont) (h3 : name.head? ≠ some '/') :
    (c.url ≠ [] → _blob_url (some c) acct cont name = c.url ++ '/' :: name) ∧
    (c.url = [] →
      _blob_url (some c) acct cont name
        = rstrip (fun x => x == '/') acct ++ '/' :: (cont ++ '/' :: name) ∧
      dslashCount (_blob_url (some c) acct cont name)
        = dslashCount (rstrip (fun x => x == '/') acct) + dslashCount name) := by
  constructor
  · intro hu
    rw [blob_url_some, if_pos (by simpa [List.isEmpty_iff] using hu)]
  · intro hu
    have heq : _blob_url (some c) acct cont name
        = rstrip (fun x => x == '/') acct ++ '/' :: (cont ++ '/' :: name) := by
      rw [blob_url_some, if_neg (by simp [hu])]
    refine ⟨heq, ?_⟩
    rw [heq]
    obtain ⟨c0, cr, rfl⟩ : ∃ c0 cr, cont = c0 :: cr := by
      cases cont with
      | nil => exact absurd rfl h1
      | cons c0 cr => exact ⟨c0, cr, rfl⟩
    have hc0 : c0 ≠ '/' := fun e => h2 (by rw [e]; exact List.mem_cons_self _ _)
    have hT : ('/' :: (c0 :: cr ++ '/' :: name))
        = ('/' :: c0 :: cr) ++ ('/' :: name) := by simp
    have hdc1 : dslashCount ('/' :: c0 :: cr) = 0 := by
      have hcr := dslashCount_no_slash h2
      simp only [dslashCount]
      simp [hc0, hcr]
    have hdc2 : dslashCount ('/' :: name) = dslashCount name := by
      cases name with
      | nil => rfl
      | cons n0 nr =>
        have hn0 : n0 ≠ '/' := by
          intro e
          exact h3 (by simp [e])
        simp only [dslashCount]
        simp [hn0]
    have hlast : (c0 :: cr).getLast? ≠ some '/' :=
      fun hx => h2 (List.mem_of_mem_getLast? hx)
    have hdcT : dslashCount ('/' :: (c0 :: cr ++ '/' :: name))
        = dslashCount name := by
      rw [hT]
      rw [dslashCount_append ('/' :: c0 :: cr) ('/' :: name)
        (Or.inl (by rwa [List.getLast?_cons_cons]))]
      rw [hdc1, hdc2]
      omega
    rw [dslashCount_append _ _ (Or.inl (rstrip_slash_getLast acct)), hdcT]

/-- C9 (witness): a concrete composition, an account URL ending in a slash,
a plain container name and a plain key. -/
theorem blob_url_structure_witness :
    dslashCount (_blob_url (some ⟨[], Except.ok ()⟩)
        (str "https://acc.example/") (str "imgs") (str "k.png"))
      = dslashCount (rstrip (fun x => x == '/') (str "https://acc.example/"))
        + dslashCount (str "k.png") :=
  ((blob_url_structure ⟨[], Except.ok ()⟩ (str "https://acc.example/")
    (str "imgs") (str "k.png") (by decide) (by decide) (by decide)).2 rfl).2
